import Mathlib

/-!
Verification of the face-recognition matcher of this repository: the helper
`euclideanDistance` and the route handler `POST /api/recognize`, as written in
`src/server.js`, together with the variant of the same route in the unnamed
source file (`src/unnamed/part_000`, the "Optimized" copy).

Modelling choices:
* Descriptor entries are rationals (`ℚ`): every finite JS number is a rational.
* JS `NaN` is modelled by `Option`: reading `arr2[i]` out of range yields
  `undefined`, and `undefined` poisons the running sum to `NaN` (`none`).
  Every JS comparison `NaN < x` is false, which the model reproduces.
* Distances live in `ℝ` because the source takes a square root.
-/

/-- Student document as used by the recognize route: fields `_id`, `name`,
`rollNo`, `email` and `faceDescriptors` (a list of stored descriptors). -/
structure Student where
  id : ℕ
  name : String
  rollNo : String
  email : String
  faceDescriptors : List (List ℚ)
deriving DecidableEq

/-- Shape of the `student` object embedded in a match record:
`{ id, name, rollNo, email }`. -/
structure MatchedStudent where
  id : ℕ
  name : String
  rollNo : String
  email : String
deriving DecidableEq

/-- Element of the `matches` array: `{ student, confidence, distance }`. -/
structure MatchResult where
  student : MatchedStudent
  confidence : ℝ
  distance : ℝ

/-- Loop body of `euclideanDistance`: `sum += Math.pow(arr1[i] - arr2[i], 2)`.
An out-of-range read gives `undefined`, which poisons the sum to `NaN`;
`none` models that. -/
def sqStep (arr1 arr2 : List ℚ) (sum : Option ℚ) (i : ℕ) : Option ℚ := do
  let s ← sum
  let x ← arr1.get? i
  let y ← arr2.get? i
  pure (s + (x - y) ^ 2)

/-- Loop of `euclideanDistance`: `for (let i = 0; i < arr1.length; i++)` —
both source variants iterate over the indices of the first argument only. -/
def sqDiffSum (arr1 arr2 : List ℚ) : Option ℚ :=
  (List.range arr1.length).foldl (sqStep arr1 arr2) (some 0)

/-- Helper `euclideanDistance(arr1, arr2) = Math.sqrt(sum)`;
`Math.sqrt(NaN)` is `NaN`. -/
noncomputable def euclideanDistance (arr1 arr2 : List ℚ) : Option ℝ :=
  (sqDiffSum arr1 arr2).map (fun (s : ℚ) => Real.sqrt (s : ℝ))

/-- Constant `const threshold = 0.6` of the recognize route. -/
noncomputable def threshold : ℝ := 0.6

/-- Mutable locals of the per-probe scan: `bestMatch` (initially `null`) and
`bestDistance` (initially `Infinity`, modelled as `none`). -/
structure BestState where
  bestMatch : Option MatchResult
  bestDistance : Option ℝ

/-- Comparison `distance < bestDistance` against a `bestDistance` that starts
at `Infinity` (`none`): every real distance is below `Infinity`. -/
def ltBest (v : ℝ) (bd : Option ℝ) : Prop :=
  match bd with
  | none => True
  | some b => v < b

/-- Candidate record built by `server.js`:
`{ student, confidence: 1 - distance, distance }` (raw, unrounded). -/
def mkMatch (s : Student) (v : ℝ) : MatchResult :=
  ⟨⟨s.id, s.name, s.rollNo, s.email⟩, 1 - v, v⟩

/-- Numeric value of JS `x.toFixed(d)`: `x` rounded to `d` decimal places. -/
noncomputable def toFixedVal (d : ℕ) (x : ℝ) : ℝ :=
  ((round (x * 10 ^ d) : ℤ) : ℝ) / 10 ^ d

/-- Candidate record built by the part_000 variant:
`{ student, confidence: (1 - distance).toFixed(2), distance: distance.toFixed(3) }`. -/
noncomputable def mkMatchOpt (s : Student) (v : ℝ) : MatchResult :=
  ⟨⟨s.id, s.name, s.rollNo, s.email⟩, toFixedVal 2 (1 - v), toFixedVal 3 v⟩

noncomputable instance (v : ℝ) (bd : Option ℝ) : Decidable (ltBest v bd) :=
  match bd with
  | none => isTrue trivial
  | some b => inferInstanceAs (Decidable (v < b))

/-- One iteration of the innermost loop: compare the probe against one stored
descriptor and update the candidate when
`distance < threshold && distance < bestDistance`.  A `NaN` distance fails the
first comparison, so the state is kept.  The parameter `mk` is the candidate
constructor (`mkMatch` in `server.js`, `mkMatchOpt` in part_000). -/
noncomputable def scanStep (mk : Student → ℝ → MatchResult) (t : ℝ)
    (descriptor : List ℚ) (student : Student) (st : BestState)
    (stored : List ℚ) : BestState :=
  match euclideanDistance descriptor stored with
  | none => st
  | some v =>
    if v < t ∧ ltBest v st.bestDistance then
      ⟨some (mk student v), some v⟩
    else st

/-- Per-probe scan over all students and each student's stored descriptors,
returning the final `bestMatch`. -/
noncomputable def bestForWith (mk : Student → ℝ → MatchResult) (t : ℝ)
    (students : List Student) (descriptor : List ℚ) : Option MatchResult :=
  (students.foldl
    (fun (st : BestState) (student : Student) =>
      student.faceDescriptors.foldl (scanStep mk t descriptor student) st)
    ⟨none, none⟩).bestMatch

/-- Database query of the route,
`Student.find({ faceDescriptors: { $exists: true, $ne: [] } })`: only students
with a non-empty stored descriptor list are scanned. -/
def eligible (students : List Student) : List Student :=
  students.filter (fun s => !s.faceDescriptors.isEmpty)

/-- Statement `if (bestMatch) matches.push(bestMatch)` of the route: a `null`
best match contributes no entry to the output array. -/
def pushMatch (ms : List MatchResult) (r : Option MatchResult) : List MatchResult :=
  match r with
  | some m => ms ++ [m]
  | none => ms

/-- Route body of `POST /api/recognize` in `server.js`: for each detected
descriptor run the scan, then `if (bestMatch) matches.push(bestMatch)` —
probes without a match contribute no entry. -/
noncomputable def recognize (students : List Student)
    (detectedDescriptors : List (List ℚ)) : List MatchResult :=
  detectedDescriptors.foldl
    (fun (ms : List MatchResult) descriptor =>
      pushMatch ms (bestForWith mkMatch threshold (eligible students) descriptor))
    []

/-- Route body of `POST /api/recognize` in the part_000 variant: identical
scan, but the stored candidate uses the `toFixed`-rounded fields. -/
noncomputable def recognizeOpt (students : List Student)
    (detectedDescriptors : List (List ℚ)) : List MatchResult :=
  detectedDescriptors.foldl
    (fun (ms : List MatchResult) descriptor =>
      pushMatch ms (bestForWith mkMatchOpt threshold (eligible students) descriptor))
    []

/-- Iteration order of the scan, flattened: all `(student, stored descriptor)`
pairs, students in input order, each student's descriptors in input order. -/
def pairList (students : List Student) : List (Student × List ℚ) :=
  students.flatMap (fun s => s.faceDescriptors.map (fun d => (s, d)))

/-- Concrete student with the single stored descriptor `[0]`. -/
def stZero : Student := ⟨1, "alice", "r1", "e1", [[0]]⟩

/-- Concrete student with the single stored descriptor `[0.2]`. -/
def stTwoTenths : Student := ⟨2, "bob", "r2", "e2", [[2/10]]⟩

/-- Concrete student whose stored descriptor `[0, 5]` is longer than the
probes it is compared against. -/
def stLong : Student := ⟨3, "carol", "r3", "e3", [[0, 5]]⟩

/-- Concrete student with no stored descriptors at all. -/
def stEmpty : Student := ⟨4, "dave", "r4", "e4", []⟩

/-- Invariant of the per-probe scan after having seen the pairs in `seen`:
either no seen pair had a real distance below `t` and the state is untouched,
or the state holds the candidate of the first seen pair attaining the minimal
seen distance (strictly below `t`), where every seen pair with a real distance
is no closer, and every strictly earlier one is strictly farther. -/
def ScanInv (mk : Student → ℝ → MatchResult) (t : ℝ) (p : List ℚ)
    (seen : List (Student × List ℚ)) (st : BestState) : Prop :=
  (st = ⟨none, none⟩ ∧
    ∀ pr ∈ seen, ∀ w : ℝ, euclideanDistance p pr.2 = some w → ¬ w < t) ∨
  (∃ i, ∃ hi : i < seen.length, ∃ v : ℝ,
    st = ⟨some (mk (seen.get ⟨i, hi⟩).1 v), some v⟩ ∧
    euclideanDistance p (seen.get ⟨i, hi⟩).2 = some v ∧ v < t ∧
    ∀ j, ∀ hj : j < seen.length, ∀ w : ℝ,
      euclideanDistance p (seen.get ⟨j, hj⟩).2 = some w →
        v ≤ w ∧ (j < i → v < w))

/-! Helper lemmas about the distance loop. -/

lemma sqStep_none (a b : List ℚ) (i : ℕ) : sqStep a b none i = none := rfl

lemma sqStep_some (a b : List ℚ) (s : ℚ) (i : ℕ) (ha : i < a.length)
    (hb : i < b.length) :
    sqStep a b (some s) i = some (s + (a.getD i 0 - b.getD i 0) ^ 2) := by
  simp [sqStep, List.get?_eq_getElem?, List.getElem?_eq_getElem, ha, hb,
    List.getD_eq_getElem?_getD]

lemma sqStep_oob (a b : List ℚ) (s : Option ℚ) (i : ℕ) (hb : b.length ≤ i) :
    sqStep a b s i = none := by
  cases s with
  | none => rfl
  | some v =>
    simp only [sqStep, List.get?_eq_getElem?, Option.bind_eq_bind,
      Option.some_bind]
    rw [List.getElem?_eq_none hb]
    cases a[i]? <;> simp

lemma foldl_sqStep_none (a b : List ℚ) (l : List ℕ) :
    l.foldl (sqStep a b) none = none := by
  induction l with
  | nil => rfl
  | cons x xs ih => simpa [sqStep_none] using ih

lemma sqDiffSum_aux (a b : List ℚ) (n : ℕ) (ha : n ≤ a.length)
    (hb : n ≤ b.length) (init : ℚ) :
    (List.range n).foldl (sqStep a b) (some init) =
      some (init + ∑ i ∈ Finset.range n, (a.getD i 0 - b.getD i 0) ^ 2) := by
  induction n with
  | zero => simp
  | succ n ih =>
    rw [List.range_succ, List.foldl_append,
      ih (Nat.le_of_succ_le ha) (Nat.le_of_succ_le hb)]
    simp only [List.foldl_cons, List.foldl_nil]
    rw [sqStep_some a b _ n ha hb, Finset.sum_range_succ, add_assoc]

/-- Value of the loop when the probe is no longer than the stored vector:
the exact sum of squared differences over the probe's indices. -/
lemma sqDiffSum_eq_sum (a b : List ℚ) (h : a.length ≤ b.length) :
    sqDiffSum a b =
      some (∑ i ∈ Finset.range a.length, (a.getD i 0 - b.getD i 0) ^ 2) := by
  rw [sqDiffSum, sqDiffSum_aux a b a.length le_rfl h 0]
  simp

/-- Value of the loop when the probe is strictly longer than the stored
vector: the sum is poisoned to `NaN`. -/
lemma sqDiffSum_eq_none (a b : List ℚ) (h : b.length < a.length) :
    sqDiffSum a b = none := by
  obtain ⟨k, hk⟩ : ∃ k, a.length = (b.length + 1) + k := ⟨a.length - (b.length + 1), by omega⟩
  rw [sqDiffSum, hk, List.range_add, List.foldl_append, List.range_succ,
    List.foldl_append]
  simp only [List.foldl_cons, List.foldl_nil]
  rw [sqStep_oob a b _ b.length le_rfl, foldl_sqStep_none]

/-- Distance on a probe no longer than the stored vector. -/
lemma euclideanDistance_eq_sqrt (a b : List ℚ) (h : a.length ≤ b.length) :
    euclideanDistance a b =
      some (Real.sqrt
        ((∑ i ∈ Finset.range a.length, (a.getD i 0 - b.getD i 0) ^ 2 : ℚ))) := by
  rw [euclideanDistance, sqDiffSum_eq_sum a b h, Option.map_some']

/-- Distance on a probe strictly longer than the stored vector is `NaN`. -/
lemma euclideanDistance_eq_none (a b : List ℚ) (h : b.length < a.length) :
    euclideanDistance a b = none := by
  rw [euclideanDistance, sqDiffSum_eq_none a b h, Option.map_none']

/-- Evaluation helper: when the loop sum is the square of a nonnegative
rational, the distance is that rational. -/
lemma euclideanDistance_eval (a b : List ℚ) (q c : ℚ) (hs : sqDiffSum a b = some q)
    (hc : 0 ≤ c) (hq : c ^ 2 = q) :
    euclideanDistance a b = some ((c : ℝ)) := by
  rw [euclideanDistance, hs, Option.map_some']
  have hq2 : ((q : ℚ) : ℝ) = ((c : ℝ)) ^ 2 := by rw [← hq]; push_cast; ring
  rw [hq2, Real.sqrt_sq (by exact_mod_cast hc)]

/-! Flattening the nested loops over students and stored descriptors into a
single scan over `pairList`. -/

lemma get_concat {α : Type} (l : List α) (x : α)
    (h : l.length < (l ++ [x]).length) :
    (l ++ [x]).get ⟨l.length, h⟩ = x := by
  rw [List.get_eq_getElem]
  exact List.getElem_concat_length l x l.length rfl h

lemma get_append_left {α : Type} (l : List α) (x : α) (j : ℕ)
    (hj : j < l.length) (h : j < (l ++ [x]).length) :
    (l ++ [x]).get ⟨j, h⟩ = l.get ⟨j, hj⟩ := by
  rw [List.get_eq_getElem, List.get_eq_getElem]
  exact List.getElem_append_left hj

lemma foldl_pairs (mk : Student → ℝ → MatchResult) (t : ℝ) (p : List ℚ)
    (students : List Student) (st : BestState) :
    students.foldl
      (fun (st : BestState) (student : Student) =>
        student.faceDescriptors.foldl (scanStep mk t p student) st) st =
    (pairList students).foldl
      (fun st pr => scanStep mk t p pr.1 st pr.2) st := by
  induction students generalizing st with
  | nil => rfl
  | cons s rest ih =>
    rw [List.foldl_cons, pairList, List.flatMap_cons, List.foldl_append,
      List.foldl_map, ← pairList, ih]

lemma bestForWith_eq (mk : Student → ℝ → MatchResult) (t : ℝ)
    (students : List Student) (p : List ℚ) :
    bestForWith mk t students p =
      ((pairList students).foldl
        (fun st pr => scanStep mk t p pr.1 st pr.2) ⟨none, none⟩).bestMatch := by
  rw [bestForWith, foldl_pairs]

/-! Evaluation rules for one scan step. -/

lemma scanStep_nan (mk : Student → ℝ → MatchResult) (t : ℝ) (p : List ℚ)
    (student : Student) (st : BestState) (stored : List ℚ)
    (hd : euclideanDistance p stored = none) :
    scanStep mk t p student st stored = st := by
  simp [scanStep, hd]

lemma scanStep_update (mk : Student → ℝ → MatchResult) (t : ℝ) (p : List ℚ)
    (student : Student) (st : BestState) (stored : List ℚ) (v : ℝ)
    (hd : euclideanDistance p stored = some v) (h1 : v < t)
    (h2 : ltBest v st.bestDistance) :
    scanStep mk t p student st stored = ⟨some (mk student v), some v⟩ := by
  simp only [scanStep, hd]
  rw [if_pos ⟨h1, h2⟩]

lemma scanStep_keep (mk : Student → ℝ → MatchResult) (t : ℝ) (p : List ℚ)
    (student : Student) (st : BestState) (stored : List ℚ) (v : ℝ)
    (hd : euclideanDistance p stored = some v)
    (h : ¬ (v < t ∧ ltBest v st.bestDistance)) :
    scanStep mk t p student st stored = st := by
  simp only [scanStep, hd]
  rw [if_neg h]

/-! The scan invariant: established at the start, preserved by each step. -/

lemma ScanInv.step (mk : Student → ℝ → MatchResult) (t : ℝ) (p : List ℚ)
    (seen : List (Student × List ℚ)) (st : BestState) (pr : Student × List ℚ)
    (h : ScanInv mk t p seen st) :
    ScanInv mk t p (seen ++ [pr]) (scanStep mk t p pr.1 st pr.2) := by
  have hlt : seen.length < (seen ++ [pr]).length := by simp
  rcases h with ⟨hst, hall⟩ | ⟨i, hi, v, hst, hdist, hvt, hmin⟩
  · subst hst
    cases hd : euclideanDistance p pr.2 with
    | none =>
      rw [scanStep_nan mk t p pr.1 _ pr.2 hd]
      left
      refine ⟨rfl, fun x hx w hw => ?_⟩
      rcases List.mem_append.1 hx with hx | hx
      · exact hall x hx w hw
      · rw [List.mem_singleton.1 hx, hd] at hw; cases hw
    | some w =>
      by_cases hwt : w < t
      · rw [scanStep_update mk t p pr.1 ⟨none, none⟩ pr.2 w hd hwt trivial]
        right
        refine ⟨seen.length, hlt, w, by rw [get_concat], by rw [get_concat]; exact hd,
          hwt, fun j hj w2 hw2 => ?_⟩
        by_cases hjs : j < seen.length
        · rw [get_append_left seen pr j hjs] at hw2
          have hw2t := hall _ (List.get_mem seen j hjs) w2 hw2
          have ht2 : t ≤ w2 := le_of_not_lt hw2t
          exact ⟨le_of_lt (lt_of_lt_of_le hwt ht2),
            fun _ => lt_of_lt_of_le hwt ht2⟩
        · have hjeq : j = seen.length := by
            have := hj; simp at this; omega
          subst hjeq
          rw [get_concat, hd] at hw2
          cases hw2
          exact ⟨le_rfl, fun hcon => absurd hcon (by omega)⟩
      · rw [scanStep_keep mk t p pr.1 _ pr.2 w hd (fun hc => hwt hc.1)]
        left
        refine ⟨rfl, fun x hx w2 hw2 => ?_⟩
        rcases List.mem_append.1 hx with hx | hx
        · exact hall x hx w2 hw2
        · rw [List.mem_singleton.1 hx, hd] at hw2
          cases hw2; exact hwt
  · subst hst
    have hi2 : i < (seen ++ [pr]).length := by simp; omega
    have hgeti : (seen ++ [pr]).get ⟨i, hi2⟩ = seen.get ⟨i, hi⟩ :=
      get_append_left seen pr i hi hi2
    cases hd : euclideanDistance p pr.2 with
    | none =>
      rw [scanStep_nan mk t p pr.1 _ pr.2 hd]
      right
      refine ⟨i, hi2, v, by rw [hgeti], by rw [hgeti]; exact hdist, hvt,
        fun j hj w2 hw2 => ?_⟩
      by_cases hjs : j < seen.length
      · rw [get_append_left seen pr j hjs] at hw2
        exact hmin j hjs w2 hw2
      · have hjeq : j = seen.length := by simp at hj; omega
        subst hjeq
        rw [get_concat, hd] at hw2
        cases hw2
    | some w =>
      by_cases hc : w < t ∧ w < v
      · rw [scanStep_update mk t p pr.1
            ⟨some (mk (seen.get ⟨i, hi⟩).1 v), some v⟩ pr.2 w hd hc.1 hc.2]
        right
        refine ⟨seen.length, hlt, w, by rw [get_concat], by rw [get_concat]; exact hd,
          hc.1, fun j hj w2 hw2 => ?_⟩
        by_cases hjs : j < seen.length
        · rw [get_append_left seen pr j hjs] at hw2
          have h1 := (hmin j hjs w2 hw2).1
          exact ⟨le_of_lt (lt_of_lt_of_le hc.2 h1),
            fun _ => lt_of_lt_of_le hc.2 h1⟩
        · have hjeq : j = seen.length := by simp at hj; omega
          subst hjeq
          rw [get_concat, hd] at hw2
          cases hw2
          exact ⟨le_rfl, fun hcon => absurd hcon (by omega)⟩
      · rw [scanStep_keep mk t p pr.1
            ⟨some (mk (seen.get ⟨i, hi⟩).1 v), some v⟩ pr.2 w hd
            (fun hcc => hc ⟨hcc.1, hcc.2⟩)]
        right
        refine ⟨i, hi2, v, by rw [hgeti], by rw [hgeti]; exact hdist, hvt,
          fun j hj w2 hw2 => ?_⟩
        by_cases hjs : j < seen.length
        · rw [get_append_left seen pr j hjs] at hw2
          exact hmin j hjs w2 hw2
        · have hjeq : j = seen.length := by simp at hj; omega
          subst hjeq
          rw [get_concat, hd] at hw2
          cases hw2
          constructor
          · by_cases hwt : w < t
            · exact le_of_not_lt (fun hlt2 => hc ⟨hwt, hlt2⟩)
            · exact le_of_lt (lt_of_lt_of_le hvt (le_of_not_lt hwt))
          · intro hcon; exact absurd hcon (by omega)

lemma ScanInv.fold (mk : Student → ℝ → MatchResult) (t : ℝ) (p : List ℚ)
    (L : List (Student × List ℚ)) (seen : List (Student × List ℚ))
    (st : BestState) (h : ScanInv mk t p seen st) :
    ScanInv mk t p (seen ++ L)
      (L.foldl (fun st pr => scanStep mk t p pr.1 st pr.2) st) := by
  induction L generalizing seen st with
  | nil => simpa using h
  | cons x L ih =>
    rw [List.foldl_cons]
    have h2 := ih (seen ++ [x]) _ (ScanInv.step mk t p seen st x h)
    simpa [List.append_assoc] using h2

lemma scanInv_final (mk : Student → ℝ → MatchResult) (t : ℝ) (p : List ℚ)
    (students : List Student) :
    ScanInv mk t p (pairList students)
      ((pairList students).foldl
        (fun st pr => scanStep mk t p pr.1 st pr.2) ⟨none, none⟩) := by
  have h0 : ScanInv mk t p [] ⟨none, none⟩ := Or.inl ⟨rfl, by simp⟩
  simpa using ScanInv.fold mk t p (pairList students) [] ⟨none, none⟩ h0

/-! Extraction of the two possible scan outcomes. -/

lemma bestForWith_none_iff (mk : Student → ℝ → MatchResult) (t : ℝ)
    (students : List Student) (p : List ℚ) :
    bestForWith mk t students p = none ↔
      ∀ pr ∈ pairList students, ∀ w : ℝ,
        euclideanDistance p pr.2 = some w → ¬ w < t := by
  rw [bestForWith_eq]
  rcases scanInv_final mk t p students with ⟨hst, hall⟩ | ⟨i, hi, v, hst, hdist, hvt, hmin⟩
  · rw [hst]
    exact ⟨fun _ => hall, fun _ => rfl⟩
  · rw [hst]
    constructor
    · intro hcontra; exact absurd hcontra (by simp)
    · intro hall
      exact absurd hvt (hall _ (List.get_mem _ i hi) v hdist)

lemma bestForWith_some (mk : Student → ℝ → MatchResult) (t : ℝ)
    (students : List Student) (p : List ℚ) (m : MatchResult)
    (h : bestForWith mk t students p = some m) :
    ∃ i, ∃ hi : i < (pairList students).length, ∃ v : ℝ,
      m = mk ((pairList students).get ⟨i, hi⟩).1 v ∧
      euclideanDistance p ((pairList students).get ⟨i, hi⟩).2 = some v ∧
      v < t ∧
      ∀ j, ∀ hj : j < (pairList students).length, ∀ w : ℝ,
        euclideanDistance p ((pairList students).get ⟨j, hj⟩).2 = some w →
          v ≤ w ∧ (j < i → v < w) := by
  rw [bestForWith_eq] at h
  rcases scanInv_final mk t p students with ⟨hst, hall⟩ | ⟨i, hi, v, hst, hdist, hvt, hmin⟩
  · rw [hst] at h; exact absurd h (by simp)
  · rw [hst] at h
    have hm : m = mk ((pairList students).get ⟨i, hi⟩).1 v := by
      have h2 : some (mk ((pairList students).get ⟨i, hi⟩).1 v) = some m := h
      injection h2 with h3
      exact h3.symm
    exact ⟨i, hi, v, hm, hdist, hvt, hmin⟩

/-! Structure of the route output. -/

lemma pushMatch_some (ms : List MatchResult) (m : MatchResult) :
    pushMatch ms (some m) = ms ++ [m] := rfl

lemma pushMatch_none (ms : List MatchResult) : pushMatch ms none = ms := rfl

lemma foldl_pushMatch (f : List ℚ → Option MatchResult) (ps : List (List ℚ))
    (acc : List MatchResult) :
    ps.foldl (fun ms p => pushMatch ms (f p)) acc = acc ++ ps.filterMap f := by
  induction ps generalizing acc with
  | nil => simp
  | cons p ps ih =>
    rw [List.foldl_cons, List.filterMap_cons]
    cases hf : f p with
    | none => rw [pushMatch_none, ih]
    | some m => rw [pushMatch_some, ih, List.append_assoc, List.singleton_append]

lemma recognize_eq_filterMap (students : List Student) (ps : List (List ℚ)) :
    recognize students ps =
      ps.filterMap (fun p => bestForWith mkMatch threshold (eligible students) p) := by
  rw [recognize, foldl_pushMatch, List.nil_append]

lemma recognizeOpt_eq_filterMap (students : List Student) (ps : List (List ℚ)) :
    recognizeOpt students ps =
      ps.filterMap (fun p => bestForWith mkMatchOpt threshold (eligible students) p) := by
  rw [recognizeOpt, foldl_pushMatch, List.nil_append]

lemma pairList_cons (s : Student) (rest : List Student) :
    pairList (s :: rest) =
      s.faceDescriptors.map (fun d => (s, d)) ++ pairList rest := by
  simp [pairList]

/-- Students with an empty descriptor list contribute no pairs, so the
database filter does not change the pair scan order. -/
lemma pairList_eligible (students : List Student) :
    pairList (eligible students) = pairList students := by
  induction students with
  | nil => rfl
  | cons s rest ih =>
    by_cases hs : s.faceDescriptors.isEmpty
    · have hnil : s.faceDescriptors = [] := List.isEmpty_iff.1 hs
      have hfil : eligible (s :: rest) = eligible rest := by
        simp [eligible, List.filter_cons, hs]
      rw [hfil, ih, pairList_cons, hnil]
      simp
    · have hfil : eligible (s :: rest) = s :: eligible rest := by
        simp [eligible, List.filter_cons, hs]
      rw [hfil, pairList_cons, pairList_cons, ih]

/-! More helpers: truncation, membership extraction, small concrete scans. -/

lemma getD_take (b : List ℚ) (n i : ℕ) (hi : i < n) :
    (b.take n).getD i 0 = b.getD i 0 := by
  rw [List.getD_eq_getElem?_getD, List.getD_eq_getElem?_getD,
    List.getElem?_take, if_pos hi]

lemma euclideanDistance_take (a b : List ℚ) (h : a.length ≤ b.length) :
    euclideanDistance a b = euclideanDistance a (b.take a.length) := by
  have hlen : a.length ≤ (b.take a.length).length := by
    simp [List.length_take]
    omega
  rw [euclideanDistance_eq_sqrt a b h, euclideanDistance_eq_sqrt a _ hlen]
  have hsum : (∑ i ∈ Finset.range a.length, (a.getD i 0 - b.getD i 0) ^ 2) =
      ∑ i ∈ Finset.range a.length,
        (a.getD i 0 - (b.take a.length).getD i 0) ^ 2 := by
    refine Finset.sum_congr rfl (fun i hi => ?_)
    rw [getD_take b a.length i (Finset.mem_range.1 hi)]
  rw [hsum]

lemma bestForWith_nil (mk : Student → ℝ → MatchResult) (t : ℝ) (p : List ℚ) :
    bestForWith mk t [] p = none := rfl

lemma mem_recognize (students : List Student) (ps : List (List ℚ))
    (m : MatchResult) (h : m ∈ recognize students ps) :
    ∃ p ∈ ps, bestForWith mkMatch threshold (eligible students) p = some m := by
  rw [recognize_eq_filterMap] at h
  exact List.mem_filterMap.1 h

lemma mem_recognizeOpt (students : List Student) (ps : List (List ℚ))
    (m : MatchResult) (h : m ∈ recognizeOpt students ps) :
    ∃ p ∈ ps, bestForWith mkMatchOpt threshold (eligible students) p = some m := by
  rw [recognizeOpt_eq_filterMap] at h
  exact List.mem_filterMap.1 h

lemma bestForWith_single (mk : Student → ℝ → MatchResult) (t : ℝ) (p : List ℚ)
    (s : Student) (d : List ℚ) (v : ℝ) (hs : s.faceDescriptors = [d])
    (hd : euclideanDistance p d = some v) (hv : v < t) :
    bestForWith mk t [s] p = some (mk s v) := by
  simp only [bestForWith, List.foldl_cons, List.foldl_nil, hs]
  rw [scanStep_update mk t p s ⟨none, none⟩ d v hd hv trivial]

lemma bestForWith_pair_first (mk : Student → ℝ → MatchResult) (t : ℝ)
    (p : List ℚ) (s1 s2 : Student) (d1 d2 : List ℚ) (v1 v2 : ℝ)
    (hs1 : s1.faceDescriptors = [d1]) (hs2 : s2.faceDescriptors = [d2])
    (hd1 : euclideanDistance p d1 = some v1) (hv1 : v1 < t)
    (hd2 : euclideanDistance p d2 = some v2) (hnot : ¬ v2 < v1) :
    bestForWith mk t [s1, s2] p = some (mk s1 v1) := by
  simp only [bestForWith, List.foldl_cons, List.foldl_nil, hs1, hs2]
  rw [scanStep_update mk t p s1 ⟨none, none⟩ d1 v1 hd1 hv1 trivial,
    scanStep_keep mk t p s2 ⟨some (mk s1 v1), some v1⟩ d2 v2 hd2
      (fun hc => hnot hc.2)]

lemma mem_pairList_eligible (students : List Student) (pr : Student × List ℚ)
    (h : pr ∈ pairList (eligible students)) : pr ∈ pairList students :=
  pairList_eligible students ▸ h

/-! Concrete distance evaluations used by witnesses and counterexamples. -/

lemma ed_zero_long : euclideanDistance [0] [0, 5] = some 0 := by
  have h := euclideanDistance_eval [0] [0, 5] 0 0
    (by norm_num [sqDiffSum, sqStep, List.range_succ]) le_rfl (by norm_num)
  simpa using h

lemma ed_zero_zero : euclideanDistance [0] [0] = some 0 := by
  have h := euclideanDistance_eval [0] [0] 0 0
    (by norm_num [sqDiffSum, sqStep, List.range_succ]) le_rfl (by norm_num)
  simpa using h

lemma ed_tie1 : euclideanDistance [1/10] [0] = some ((1 : ℝ)/10) := by
  have h := euclideanDistance_eval [1/10] [0] (1/100) (1/10)
    (by norm_num [sqDiffSum, sqStep, List.range_succ]) (by norm_num) (by norm_num)
  have hc : ((1/10 : ℚ) : ℝ) = (1 : ℝ)/10 := by norm_num
  rw [hc] at h
  exact h

lemma ed_tie2 : euclideanDistance [1/10] [2/10] = some ((1 : ℝ)/10) := by
  have h := euclideanDistance_eval [1/10] [2/10] (1/100) (1/10)
    (by norm_num [sqDiffSum, sqStep, List.range_succ]) (by norm_num) (by norm_num)
  have hc : ((1/10 : ℚ) : ℝ) = (1 : ℝ)/10 := by norm_num
  rw [hc] at h
  exact h

lemma ed_512 : euclideanDistance [512/1000] [0] = some ((512 : ℝ)/1000) := by
  have h := euclideanDistance_eval [512/1000] [0] (262144/1000000) (512/1000)
    (by norm_num [sqDiffSum, sqStep, List.range_succ]) (by norm_num) (by norm_num)
  have hc : ((512/1000 : ℚ) : ℝ) = (512 : ℝ)/1000 := by norm_num
  rw [hc] at h
  exact h

/-! Claim theorems. -/

/-- C1 (counterexample): with an empty gallery and one probe, the route's
output array is empty rather than holding one "no match" entry per probe, so
the output length differs from the probe count. -/
theorem recognize_drops_unmatched_probe :
    (recognize [] [[0]]).length = 0 ∧ [[(0 : ℚ)]].length = 1 := by
  exact ⟨rfl, rfl⟩

/-- C1 (amended): the output of `recognize` is exactly the sequence of
best-match records of the probes that matched, in probe order; probes without
a match contribute no entry, so the output can be shorter than the batch. -/
theorem recognize_keeps_only_matched (students : List Student)
    (ps : List (List ℚ)) :
    recognize students ps =
      ps.filterMap (fun p => bestForWith mkMatch threshold (eligible students) p) ∧
    (recognize students ps).length ≤ ps.length := by
  refine ⟨recognize_eq_filterMap students ps, ?_⟩
  rw [recognize_eq_filterMap]
  exact List.length_filterMap_le _ _

/-- C2 (counterexample): a probe of length 1 compared against a stored
descriptor of length 2 raises no `InvalidInput` condition; the call returns a
normal, successful match built from the truncated comparison. -/
theorem recognize_mismatched_pair_matches :
    [(0 : ℚ)].length ≠ [(0 : ℚ), 5].length ∧
    recognize [stLong] [[0]] = [⟨⟨3, "carol", "r3", "e3"⟩, 1, 0⟩] := by
  refine ⟨by decide, ?_⟩
  have hb : bestForWith mkMatch threshold (eligible [stLong]) [0] =
      some (mkMatch stLong 0) := by
    have he : eligible [stLong] = [stLong] := rfl
    rw [he]
    exact bestForWith_single mkMatch threshold [0] stLong [0, 5] 0 rfl
      ed_zero_long (by norm_num [threshold])
  simp only [recognize, List.foldl_cons, List.foldl_nil]
  rw [hb]
  simp [pushMatch, mkMatch, stLong]

/-- C2 (amended): the matcher performs no dimensionality check and never
fails.  A probe shorter than a stored descriptor is silently compared against
the descriptor's prefix of the probe's length; a probe longer than a stored
descriptor gets a `NaN` distance, so that pair silently never matches and the
scan state is unchanged. -/
theorem mismatch_is_silent (a b : List ℚ) (h : a.length ≠ b.length) :
    (a.length < b.length →
      euclideanDistance a b = euclideanDistance a (b.take a.length)) ∧
    (b.length < a.length →
      euclideanDistance a b = none ∧
      ∀ (mk : Student → ℝ → MatchResult) (t : ℝ) (s : Student) (st : BestState),
        scanStep mk t a s st b = st) := by
  refine ⟨fun hlt => euclideanDistance_take a b hlt.le, fun hgt => ?_⟩
  have hn := euclideanDistance_eq_none a b hgt
  exact ⟨hn, fun mk t s st => scanStep_nan mk t a s st b hn⟩

/-- Witness for the amended C2 at the concrete mismatched pair
`[0]` versus `[0, 5, 7]`. -/
theorem mismatch_is_silent_witness :
    [(0 : ℚ)].length ≠ [(0 : ℚ), 5, 7].length ∧
    (([(0 : ℚ)].length < [(0 : ℚ), 5, 7].length →
      euclideanDistance [0] [0, 5, 7] =
        euclideanDistance [0] ([0, 5, 7].take [(0 : ℚ)].length)) ∧
    ([(0 : ℚ), 5, 7].length < [(0 : ℚ)].length →
      euclideanDistance [0] [0, 5, 7] = none ∧
      ∀ (mk : Student → ℝ → MatchResult) (t : ℝ) (s : Student) (st : BestState),
        scanStep mk t [0] s st [0, 5, 7] = st)) :=
  ⟨by decide, mismatch_is_silent [0] [0, 5, 7] (by decide)⟩

/-- C6: on equal-length vectors the distance is exactly the Euclidean
distance, the square root of the sum of squared coordinate differences, with
no normalization or weighting. -/
theorem euclideanDistance_is_sqrt_sum (a b : List ℚ) (h : a.length = b.length) :
    euclideanDistance a b =
      some (Real.sqrt (∑ i ∈ Finset.range a.length,
        ((a.getD i 0 : ℝ) - (b.getD i 0 : ℝ)) ^ 2)) := by
  rw [euclideanDistance_eq_sqrt a b h.le]
  congr 2
  push_cast
  rfl

/-- Witness for C6 at the concrete pair `[1, 2]`, `[3, 4]`. -/
theorem euclideanDistance_is_sqrt_sum_witness :
    [(1 : ℚ), 2].length = [(3 : ℚ), 4].length ∧
    euclideanDistance [1, 2] [3, 4] =
      some (Real.sqrt (∑ i ∈ Finset.range [(1 : ℚ), 2].length,
        (([(1 : ℚ), 2].getD i 0 : ℝ) - ([(3 : ℚ), 4].getD i 0 : ℝ)) ^ 2)) :=
  ⟨by decide, euclideanDistance_is_sqrt_sum [1, 2] [3, 4] (by decide)⟩

/-- C8: on equal-length vectors the distance is symmetric, and the distance
of a vector to itself is zero. -/
theorem distance_symm_and_self_zero (a b : List ℚ) (h : a.length = b.length) :
    euclideanDistance a b = euclideanDistance b a ∧
    euclideanDistance a a = some 0 := by
  constructor
  · rw [euclideanDistance_eq_sqrt a b h.le, euclideanDistance_eq_sqrt b a h.ge]
    have hsum : (∑ i ∈ Finset.range a.length, (a.getD i 0 - b.getD i 0) ^ 2) =
        ∑ i ∈ Finset.range b.length, (b.getD i 0 - a.getD i 0) ^ 2 := by
      rw [h]
      exact Finset.sum_congr rfl (fun i _ => by ring)
    rw [hsum]
  · rw [euclideanDistance_eq_sqrt a a le_rfl]
    simp

/-- Witness for C8 at the concrete pair `[5, 7]`, `[2, 3]`. -/
theorem distance_symm_and_self_zero_witness :
    [(5 : ℚ), 7].length = [(2 : ℚ), 3].length ∧
    (euclideanDistance [5, 7] [2, 3] = euclideanDistance [2, 3] [5, 7] ∧
      euclideanDistance [(5 : ℚ), 7] [(5 : ℚ), 7] = some 0) :=
  ⟨by decide, distance_symm_and_self_zero [5, 7] [2, 3] (by decide)⟩

/-- C9: probes are processed independently; matching a two-probe batch gives
the concatenation of the results of matching each probe alone against the
same gallery. -/
theorem batch_independence (students : List Student) (p1 p2 : List ℚ) :
    recognize students [p1, p2] =
      recognize students [p1] ++ recognize students [p2] := by
  rw [recognize_eq_filterMap, recognize_eq_filterMap, recognize_eq_filterMap,
    show [p1, p2] = [p1] ++ [p2] from rfl,
    List.filterMap_append]

/-- C10: the distance loop runs over the probe's indices only, so a probe
strictly shorter than a stored descriptor gets the Euclidean distance of the
probe against the stored descriptor's prefix of the probe's length — no
error — and such a truncated comparison can still produce a match. -/
theorem shorter_probe_truncates (a b : List ℚ) (h : a.length < b.length) :
    euclideanDistance a b =
      some (Real.sqrt ((∑ i ∈ Finset.range a.length,
        (a.getD i 0 - b.getD i 0) ^ 2 : ℚ))) ∧
    euclideanDistance a b = euclideanDistance a (b.take a.length) ∧
    (bestForWith mkMatch threshold [stLong] [0]).isSome := by
  refine ⟨euclideanDistance_eq_sqrt a b h.le, euclideanDistance_take a b h.le, ?_⟩
  rw [bestForWith_single mkMatch threshold [0] stLong [0, 5] 0 rfl ed_zero_long
    (by norm_num [threshold])]
  rfl

/-- Witness for C10 at the concrete pair `[0, 1]`, `[0, 1, 9]`. -/
theorem shorter_probe_truncates_witness :
    [(0 : ℚ), 1].length < [(0 : ℚ), 1, 9].length ∧
    (euclideanDistance [0, 1] [0, 1, 9] =
      some (Real.sqrt ((∑ i ∈ Finset.range [(0 : ℚ), 1].length,
        ([(0 : ℚ), 1].getD i 0 - [(0 : ℚ), 1, 9].getD i 0) ^ 2 : ℚ))) ∧
    euclideanDistance [0, 1] [0, 1, 9] =
      euclideanDistance [0, 1] ([0, 1, 9].take [(0 : ℚ), 1].length) ∧
    (bestForWith mkMatch threshold [stLong] [0]).isSome) :=
  ⟨by decide, shorter_probe_truncates [0, 1] [0, 1, 9] (by decide)⟩

/-- C3: an emitted best match comes from the pair attaining the globally
minimal distance over all (student, stored descriptor) pairs — not best per
identity — and among equally distant pairs the first in iteration order wins,
because the state is replaced only on a strictly smaller distance. -/
theorem best_is_global_min_first_wins (students : List Student) (p : List ℚ)
    (m : MatchResult) (h : bestForWith mkMatch threshold students p = some m) :
    ∃ i, ∃ hi : i < (pairList students).length, ∃ v : ℝ,
      m = mkMatch ((pairList students).get ⟨i, hi⟩).1 v ∧
      euclideanDistance p ((pairList students).get ⟨i, hi⟩).2 = some v ∧
      v < threshold ∧
      ∀ j, ∀ hj : j < (pairList students).length, ∀ w : ℝ,
        euclideanDistance p ((pairList students).get ⟨j, hj⟩).2 = some w →
          v ≤ w ∧ (j < i → v < w) :=
  bestForWith_some mkMatch threshold students p m h

/-- Witness for C3: two students whose single descriptors are at the
identical distance 0.1 from the probe; the first student in input order is
selected. -/
theorem best_is_global_min_first_wins_witness :
    bestForWith mkMatch threshold [stZero, stTwoTenths] [1/10] =
      some (mkMatch stZero ((1 : ℝ)/10)) ∧
    (∃ i, ∃ hi : i < (pairList [stZero, stTwoTenths]).length, ∃ v : ℝ,
      mkMatch stZero ((1 : ℝ)/10) =
        mkMatch ((pairList [stZero, stTwoTenths]).get ⟨i, hi⟩).1 v ∧
      euclideanDistance [1/10]
        ((pairList [stZero, stTwoTenths]).get ⟨i, hi⟩).2 = some v ∧
      v < threshold ∧
      ∀ j, ∀ hj : j < (pairList [stZero, stTwoTenths]).length, ∀ w : ℝ,
        euclideanDistance [1/10]
          ((pairList [stZero, stTwoTenths]).get ⟨j, hj⟩).2 = some w →
          v ≤ w ∧ (j < i → v < w)) := by
  have hbest : bestForWith mkMatch threshold [stZero, stTwoTenths] [1/10] =
      some (mkMatch stZero ((1 : ℝ)/10)) :=
    bestForWith_pair_first mkMatch threshold [1/10] stZero stTwoTenths
      [0] [2/10] ((1 : ℝ)/10) ((1 : ℝ)/10) rfl rfl
      ed_tie1 (by norm_num [threshold]) ed_tie2 (by norm_num)
  exact ⟨hbest,
    best_is_global_min_first_wins [stZero, stTwoTenths] [1/10] _ hbest⟩

/-- C4: the hard-coded threshold is 0.6, and a probe produces an output entry
exactly when some gallery pair has a real distance strictly below the
threshold; a best distance equal to the threshold therefore yields no
match. -/
theorem match_emitted_iff_below_threshold (students : List Student)
    (p : List ℚ) :
    threshold = 0.6 ∧
    (recognize students [p] ≠ [] ↔
      ∃ pr ∈ pairList students, ∃ v : ℝ,
        euclideanDistance p pr.2 = some v ∧ v < threshold) := by
  refine ⟨rfl, ?_⟩
  rw [recognize_eq_filterMap]
  have hpl := pairList_eligible students
  constructor
  · intro hne
    cases ho : bestForWith mkMatch threshold (eligible students) p with
    | none => exact absurd (by simp [List.filterMap_cons, ho]) hne
    | some m =>
      obtain ⟨i, hi, v, -, hdist, hvt, -⟩ :=
        bestForWith_some mkMatch threshold (eligible students) p m ho
      have hmem : (pairList (eligible students)).get ⟨i, hi⟩ ∈
          pairList (eligible students) := List.get_mem _ i hi
      exact ⟨_, mem_pairList_eligible students _ hmem, v, hdist, hvt⟩
  · rintro ⟨pr, hpr, v, hdist, hvt⟩
    cases ho : bestForWith mkMatch threshold (eligible students) p with
    | none =>
      have hall := (bestForWith_none_iff mkMatch threshold
        (eligible students) p).1 ho
      rw [hpl] at hall
      exact absurd hvt (hall pr hpr v hdist)
    | some m => simp [List.filterMap_cons, ho]

/-- C5 (counterexample): the part_000 variant stores `toFixed`-rounded
fields, so the reported confidence of a match with raw distance 0.512 is
0.49, which is not `1 − 0.512 = 0.488`; the exact relation between the two
reported fields fails. -/
theorem recognizeOpt_confidence_not_one_sub_distance :
    recognizeOpt [stZero] [[512/1000]] =
      [⟨⟨1, "alice", "r1", "e1"⟩, (49 : ℝ)/100, (512 : ℝ)/1000⟩] ∧
    (49 : ℝ)/100 ≠ 1 - (512 : ℝ)/1000 := by
  have hb : bestForWith mkMatchOpt threshold (eligible [stZero]) [512/1000] =
      some (mkMatchOpt stZero ((512 : ℝ)/1000)) := by
    have he : eligible [stZero] = [stZero] := rfl
    rw [he]
    exact bestForWith_single mkMatchOpt threshold [512/1000] stZero [0] _ rfl
      ed_512 (by norm_num [threshold])
  constructor
  · have hrec : recognizeOpt [stZero] [[512/1000]] =
        [mkMatchOpt stZero ((512 : ℝ)/1000)] := by
      simp only [recognizeOpt, List.foldl_cons, List.foldl_nil]
      rw [hb]
      rfl
    rw [hrec]
    have hc2 : toFixedVal 2 (1 - (512 : ℝ)/1000) = (49 : ℝ)/100 := by
      rw [toFixedVal]
      norm_num [round_eq]
    have hc3 : toFixedVal 3 ((512 : ℝ)/1000) = (512 : ℝ)/1000 := by
      rw [toFixedVal]
      norm_num [round_eq]
    simp [mkMatchOpt, stZero, hc2, hc3]
  · norm_num

/-- C5 (amended): in the `server.js` handler every emitted record satisfies
`confidence = 1 − distance` exactly (unclamped); in the part_000 variant the
two reported fields are the `toFixed`-rounded images of the winning raw
distance `v`: `confidence = toFixedVal 2 (1 − v)` and
`distance = toFixedVal 3 v`. -/
theorem confidence_and_distance_views (students : List Student)
    (ps : List (List ℚ)) (m m2 : MatchResult)
    (h : m ∈ recognize students ps) (h2 : m2 ∈ recognizeOpt students ps) :
    m.confidence = 1 - m.distance ∧
    ∃ v : ℝ, m2.confidence = toFixedVal 2 (1 - v) ∧
      m2.distance = toFixedVal 3 v := by
  constructor
  · obtain ⟨p, -, hb⟩ := mem_recognize students ps m h
    obtain ⟨i, hi, v, hm, -, -, -⟩ := bestForWith_some _ _ _ _ _ hb
    rw [hm]
    simp [mkMatch]
  · obtain ⟨p, -, hb⟩ := mem_recognizeOpt students ps m2 h2
    obtain ⟨i, hi, v, hm, -, -, -⟩ := bestForWith_some _ _ _ _ _ hb
    exact ⟨v, by rw [hm]; rfl, by rw [hm]; rfl⟩

/-- Witness for the amended C5: the probe `[0]` against the gallery holding
only `stZero` matches with raw distance 0, in both route variants. -/
theorem confidence_and_distance_views_witness :
    mkMatch stZero 0 ∈ recognize [stZero] [[0]] ∧
    mkMatchOpt stZero 0 ∈ recognizeOpt [stZero] [[0]] ∧
    ((mkMatch stZero 0).confidence = 1 - (mkMatch stZero 0).distance ∧
      ∃ v : ℝ, (mkMatchOpt stZero 0).confidence = toFixedVal 2 (1 - v) ∧
        (mkMatchOpt stZero 0).distance = toFixedVal 3 v) := by
  have he : eligible [stZero] = [stZero] := rfl
  have hb1 : bestForWith mkMatch threshold (eligible [stZero]) [0] =
      some (mkMatch stZero 0) := by
    rw [he]
    exact bestForWith_single mkMatch threshold [0] stZero [0] 0 rfl
      ed_zero_zero (by norm_num [threshold])
  have hb2 : bestForWith mkMatchOpt threshold (eligible [stZero]) [0] =
      some (mkMatchOpt stZero 0) := by
    rw [he]
    exact bestForWith_single mkMatchOpt threshold [0] stZero [0] 0 rfl
      ed_zero_zero (by norm_num [threshold])
  have hm1 : mkMatch stZero 0 ∈ recognize [stZero] [[0]] := by
    have : recognize [stZero] [[0]] = [mkMatch stZero 0] := by
      simp only [recognize, List.foldl_cons, List.foldl_nil]
      rw [hb1]
      rfl
    rw [this]
    exact List.mem_singleton.2 rfl
  have hm2 : mkMatchOpt stZero 0 ∈ recognizeOpt [stZero] [[0]] := by
    have : recognizeOpt [stZero] [[0]] = [mkMatchOpt stZero 0] := by
      simp only [recognizeOpt, List.foldl_cons, List.foldl_nil]
      rw [hb2]
      rfl
    rw [this]
    exact List.mem_singleton.2 rfl
  exact ⟨hm1, hm2,
    confidence_and_distance_views [stZero] [[0]] _ _ hm1 hm2⟩

/-- C7: when no student has a stored descriptor (empty gallery included, by
vacuity), every probe yields no match — the output is empty — and a student
with zero descriptors is silently skipped: prepending it to the gallery never
changes the result. -/
theorem no_eligible_students_no_match (students : List Student)
    (ps : List (List ℚ)) (s0 : Student) :
    ((∀ s ∈ students, s.faceDescriptors = []) → recognize students ps = []) ∧
    (s0.faceDescriptors = [] →
      ∀ l : List Student, recognize (s0 :: l) ps = recognize l ps) := by
  constructor
  · intro hall
    have helig : eligible students = [] := by
      rw [eligible, List.filter_eq_nil_iff]
      intro s hs
      simp [hall s hs]
    rw [recognize_eq_filterMap, helig]
    simp [bestForWith_nil]
  · intro h0 l
    have helig : eligible (s0 :: l) = eligible l := by
      simp [eligible, List.filter_cons, h0]
    rw [recognize_eq_filterMap, recognize_eq_filterMap, helig]

/-- Witness for C7: the gallery `[stEmpty]` yields no matches, and
prepending `stEmpty` to a gallery leaves the result unchanged. -/
theorem no_eligible_students_no_match_witness :
    (∀ s ∈ [stEmpty], s.faceDescriptors = []) ∧
    recognize [stEmpty] [[0]] = [] ∧
    stEmpty.faceDescriptors = [] ∧
    recognize [stEmpty, stZero] [[0]] = recognize [stZero] [[0]] := by
  have h1 : ∀ s ∈ [stEmpty], s.faceDescriptors = [] := by decide
  have h2 : stEmpty.faceDescriptors = [] := by decide
  exact ⟨h1, (no_eligible_students_no_match [stEmpty] [[0]] stEmpty).1 h1,
    h2, (no_eligible_students_no_match [stEmpty] [[0]] stEmpty).2 h2 [stZero]⟩
